import Mathlib

/-!
Shallow embedding of the wal-g mongo archive loader
(`internal/databases/mongo/archive/loader.go`) and the default file-restore
dispatcher (`internal` package, `DefaultFileUnwrapper`), together with proofs
of the behavioural properties the design document states about them.

Collaborator code that lives outside the two embedded source files
(the `models` package timestamp/archive types, the shared `internal`
upload/download helpers, the object-store folder client) is either modelled
from the spec — each such definition carries a doc comment saying so — or is
passed in as an explicit parameter recording only the outcome the collaborator
reports, which is all the embedded control flow can observe.
-/

namespace WalG

/-- Modelled from the spec: `models.Timestamp` (the `models` package is not
part of the embedded sources) — wall-clock seconds plus a monotonic in-second
sequence counter, a totally ordered immutable value type. -/
structure Timestamp where
  TS : Nat
  Inc : Nat
deriving DecidableEq, Repr

/-- Modelled from the spec: the total order on timestamps — seconds first,
then the in-second counter. -/
def LessTS (a b : Timestamp) : Bool :=
  a.TS < b.TS || (a.TS == b.TS && a.Inc < b.Inc)

/-- Modelled from the spec: `MaxTS(a,b)` returns the later of two timestamps. -/
def MaxTS (a b : Timestamp) : Timestamp :=
  if LessTS a b then b else a

/-- The zero `models.Timestamp` value (`models.Timestamp{}` in Go). -/
def Timestamp.zero : Timestamp := ⟨0, 0⟩

/-- Modelled from the spec: the archive type tag, `Type` ∈ \x7bOplog, Gap\x7d. -/
inductive ArchiveType where
  | Oplog
  | Gap
deriving DecidableEq, Repr

/-- Modelled from the spec: `models.Archive` — one stored object covering the
half-open interval `[Start, End)` of oplog time, with the file extension of
the compression used and the type tag. -/
structure Archive where
  Start : Timestamp
  End : Timestamp
  Ext : String
  Ty : ArchiveType
deriving DecidableEq, Repr

instance : Inhabited Archive := ⟨⟨Timestamp.zero, Timestamp.zero, "", ArchiveType.Oplog⟩⟩

/-- Modelled from the spec: `models.NewArchive` enforces the archive invariant
`Start ≤ End`, failing otherwise. -/
def NewArchive (firstTS lastTS : Timestamp) (ext : String) (ty : ArchiveType) :
    Except String Archive :=
  if LessTS lastTS firstTS then
    Except.error "malformed archive interval"
  else
    Except.ok ⟨firstTS, lastTS, ext, ty⟩

def ArchiveType.str : ArchiveType → String
  | ArchiveType.Oplog => "oplog"
  | ArchiveType.Gap => "gap"

/-- Modelled from the spec: `Archive.Filename` — the storage key, a
deterministic lossless serialization of `(Start, End, Type, extension)`. -/
def Archive.Filename (a : Archive) : String :=
  a.Ty.str ++ "_" ++ toString a.Start.TS ++ "." ++ toString a.Start.Inc ++ "_"
    ++ toString a.End.TS ++ "." ++ toString a.End.Inc ++ "." ++ a.Ext

/-! ### Order lemmas for `MaxTS` (shared helpers) -/

lemma maxTS_right_comm (m x y : Timestamp) :
    MaxTS (MaxTS m x) y = MaxTS (MaxTS m y) x := by
  obtain ⟨m1, m2⟩ := m
  obtain ⟨x1, x2⟩ := x
  obtain ⟨y1, y2⟩ := y
  simp only [MaxTS, LessTS]
  repeat' split
  all_goals simp_all [Timestamp.mk.injEq]
  all_goals omega

lemma lessTS_maxTS_left (a b : Timestamp) : LessTS (MaxTS a b) a = false := by
  obtain ⟨a1, a2⟩ := a
  obtain ⟨b1, b2⟩ := b
  simp only [MaxTS, LessTS]
  split
  all_goals simp_all
  all_goals omega

lemma lessTS_maxTS_right (a b : Timestamp) : LessTS (MaxTS a b) b = false := by
  obtain ⟨a1, a2⟩ := a
  obtain ⟨b1, b2⟩ := b
  simp only [MaxTS, LessTS]
  split
  all_goals simp_all

/-! ### Backup sentinel model -/

/-- The `Backup` sentinel descriptor (`archive.Backup`): backup name,
client-side start/finish wall-clock times, opaque user annotation and
database-specific metadata. Times are modelled as naturals; `After` on Go
`time.Time` becomes `<` flipped on these naturals. -/
structure Backup where
  BackupName : String
  StartLocalTime : Nat
  FinishLocalTime : Nat
  UserData : String
  MongoMeta : String
deriving DecidableEq, Repr

instance : Inhabited Backup := ⟨⟨"", 0, 0, "", ""⟩⟩

/-- Helper building the single-quote character without a literal quote. -/
def squote (s : String) : String := "\x27" ++ s ++ "\x27"

/-! ### StorageDownloader

The downloader reads from the object-store folder; the folder's `ListFolder`
outcome and the `models.ArchFromFilename` decoder are collaborators outside
the embedded file, so they enter as parameters: `listFolder` is the list of
object keys (or the transport error) the store reports, and
`archFromFilename` is the decode outcome per key. -/

/-- The wrapped decode error of `ListOplogArchives`, naming the offending
key, as built by its `fmt.Errorf` call. -/
def wrapArchDecodeErr (key e : String) : String :=
  "can not convert retrieve timestamps since oplog archive Ext "
    ++ squote key ++ ": " ++ e

/-- The `for` loop body of `StorageDownloader.ListOplogArchives`: decode each
key, appending to the accumulated slice, aborting on the first decode error. -/
def listOplogLoop (archFromFilename : String → Except String Archive) :
    List String → List Archive → Except String (List Archive)
  | [], archives => Except.ok archives
  | key :: rest, archives =>
    match archFromFilename key with
    | Except.error e => Except.error (wrapArchDecodeErr key e)
    | Except.ok arch => listOplogLoop archFromFilename rest (archives ++ [arch])

/-- `StorageDownloader.ListOplogArchives`: list the oplog folder and decode
every key into an `Archive`; any failure aborts the whole call. -/
def ListOplogArchives (archFromFilename : String → Except String Archive)
    (listFolder : Except String (List String)) : Except String (List Archive) :=
  match listFolder with
  | Except.error e => Except.error ("can not list oplog archives folder: " ++ e)
  | Except.ok objects => listOplogLoop archFromFilename objects []

/-- The wrapped decode error of `LastKnownArchiveTS`, naming the offending
filename, as built by its `fmt.Errorf` call. -/
def wrapArchBuildErr (filename e : String) : String :=
  "can not build archive since filename " ++ squote filename ++ ": " ++ e

/-- The `for` loop body of `StorageDownloader.LastKnownArchiveTS`: decode each
key and fold `MaxTS` over the decoded archives' `End` values. -/
def lastKnownLoop (archFromFilename : String → Except String Archive) :
    List String → Timestamp → Except String Timestamp
  | [], maxTS => Except.ok maxTS
  | key :: rest, maxTS =>
    match archFromFilename key with
    | Except.error e => Except.error (wrapArchBuildErr key e)
    | Except.ok arch => lastKnownLoop archFromFilename rest (MaxTS maxTS arch.End)

/-- `StorageDownloader.LastKnownArchiveTS`: the most recent `End` timestamp
over all archives in the oplog folder, starting from `models.Timestamp{}`. -/
def LastKnownArchiveTS (archFromFilename : String → Except String Archive)
    (listFolder : Except String (List String)) : Except String Timestamp :=
  match listFolder with
  | Except.error e => Except.error ("can not fetch keys since storage folder: " ++ e ++ " ")
  | Except.ok keys => lastKnownLoop archFromFilename keys Timestamp.zero

/-- The `for` loop body of `StorageDownloader.LoadBackups`: resolve each name
through `BackupMeta`, aborting on the first failure. -/
def loadBackupsLoop (backupMeta : String → Except String Backup) :
    List String → List Backup → Except String (List Backup)
  | [], backups => Except.ok backups
  | name :: rest, backups =>
    match backupMeta name with
    | Except.error e => Except.error e
    | Except.ok b => loadBackupsLoop backupMeta rest (backups ++ [b])

/-- `StorageDownloader.LoadBackups`: resolve every name via `BackupMeta`, then
sort by `FinishLocalTime` descending. Go sorts via `sort.Slice` with
`less i j := b[i].FinishLocalTime.After(b[j].FinishLocalTime)`; `mergeSort`
with the complementary `le` is a concrete implementation of that sort
contract (a sorted permutation of the input). -/
def LoadBackups (backupMeta : String → Except String Backup)
    (names : List String) : Except String (List Backup) :=
  match loadBackupsLoop backupMeta names [] with
  | Except.error e => Except.error e
  | Except.ok backups =>
    Except.ok (backups.mergeSort
      (fun a b => decide (b.FinishLocalTime ≤ a.FinishLocalTime)))

/-! ### StorageUploader -/

/-- One object written to the store: key and byte content (bytes as a
string). -/
structure StoredObject where
  key : String
  content : String
deriving DecidableEq, Repr

/-- Collaborator outcomes observed by `StorageUploader.UploadOplogArchive`:
the compressor's file extension, the bytes `CompressAndEncrypt` yields, and
whether `buf.ReadFrom` / `su.Upload` report an error. -/
structure OplogUploadEnv where
  ext : String
  compressedStream : String
  readFromErr : Option String
  uploadErr : Option String

/-- The mutable state of a `StorageUploader` instance: its reusable internal
`bytes.Buffer`. -/
structure StorageUploaderBuf where
  buf : String
deriving DecidableEq, Repr

/-- `NewStorageUploader` creates the instance with a fresh empty buffer
(`&bytes.Buffer\x7b\x7d`). -/
def NewStorageUploaderBuf : StorageUploaderBuf := ⟨""⟩

/-- `StorageUploader.UploadOplogArchive`: build the archive key, read the
compressed/encrypted stream fully into the reused buffer, then upload the
buffered bytes. `defer su.buf.Reset()` is installed right after the
`ReadFrom` call, so every return path past that point leaves the buffer
empty; the early `NewArchive` failure returns before the buffer is touched.
Returns (result, buffer state after the call, store writes performed). -/
def StorageUploader.UploadOplogArchive (env : OplogUploadEnv)
    (firstTS lastTS : Timestamp) (su : StorageUploaderBuf) :
    Except String Unit × StorageUploaderBuf × List StoredObject :=
  match NewArchive firstTS lastTS env.ext ArchiveType.Oplog with
  | Except.error e => (Except.error ("can not build archive: " ++ e), su, [])
  | Except.ok arch =>
    let su1 : StorageUploaderBuf := ⟨su.buf ++ env.compressedStream⟩
    match env.readFromErr with
    | some e => (Except.error e, ⟨""⟩, [])
    | none =>
      match env.uploadErr with
      | some e => (Except.error e, ⟨""⟩, [])
      | none => (Except.ok (), ⟨""⟩, [⟨arch.Filename, su1.buf⟩])

/-- A sequence of `UploadOplogArchive` calls on one uploader instance,
threading the reusable buffer through. -/
def runOplogUploads : List (OplogUploadEnv × Timestamp × Timestamp) →
    StorageUploaderBuf → StorageUploaderBuf
  | [], su => su
  | (env, ts1, ts2) :: rest, su =>
    runOplogUploads rest (StorageUploader.UploadOplogArchive env ts1 ts2 su).2.1

/-- Collaborator outcome observed by `StorageUploader.UploadGapArchive`:
the compressor's file extension and whether `PushStreamToDestination`
reports an error. -/
structure GapUploadEnv where
  ext : String
  pushErr : Option String

/-- `StorageUploader.UploadGapArchive`: require a non-nil cause, build the
Gap archive key, and push the cause's textual message (`archErr.Error()`)
under that key. Returns (result, store writes performed). -/
def StorageUploader.UploadGapArchive (env : GapUploadEnv)
    (archErr : Option String) (firstTS lastTS : Timestamp) :
    Except String Unit × List StoredObject :=
  match archErr with
  | none => (Except.error "archErr must not be nil", [])
  | some msg =>
    match NewArchive firstTS lastTS env.ext ArchiveType.Gap with
    | Except.error e => (Except.error ("can not build archive: " ++ e), [])
    | Except.ok arch =>
      match env.pushErr with
      | some e => (Except.error ("error while uploading stream: " ++ e), [])
      | none => (Except.ok (), [⟨arch.Filename, msg⟩])

/-- Modelled from the spec: `utility.SentinelSuffix` — the suffix
distinguishing a backup's sentinel key from its data keys. -/
def sentinelSuffix : String := "_backup_stop_sentinel.json"

/-- Collaborator outcomes observed by `StorageUploader.UploadBackup`: the
store-assigned name and error of `internal.PushStream`, the results of
`metaProvider.Finalize`, `cmd.Wait` and `internal.UploadSentinel`, the two
`TimeNowCrossPlatformLocal()` readings, the sentinel user data and
`metaProvider.Meta()`. -/
structure BackupUploadEnv where
  pushName : String
  pushErr : Option String
  finalizeErr : Option String
  waitErr : Option String
  sentinelErr : Option String
  startTime : Nat
  finishTime : Nat
  userData : String
  meta : String

/-- The backups-root store state: data objects and sentinel objects present. -/
structure BackupStore where
  dataObjects : List String
  sentinels : List (String × Backup)
deriving DecidableEq, Repr

/-- Modelled from the spec: `internal.PushStream` streams the backup data to
the store under a store-assigned name, compressed/encrypted, returning that
name. -/
def pushStream (env : BackupUploadEnv) (st : BackupStore) :
    Except String String × BackupStore :=
  match env.pushErr with
  | some e => (Except.error e, st)
  | none =>
    (Except.ok env.pushName,
     { st with dataObjects := st.dataObjects ++ [env.pushName] })

/-- Modelled from the spec: `internal.UploadSentinel` writes the sentinel
descriptor under the backup name plus the sentinel suffix. -/
def uploadSentinel (env : BackupUploadEnv) (s : Backup) (name : String)
    (st : BackupStore) : Except String Unit × BackupStore :=
  match env.sentinelErr with
  | some e => (Except.error e, st)
  | none =>
    (Except.ok (),
     { st with sentinels := st.sentinels ++ [(name ++ sentinelSuffix, s)] })

/-- `StorageUploader.UploadBackup`: record the start time, push the data
stream, finalize the metadata, wait for the producing process, then write
the sentinel embedding start/finish times, user data and metadata — each
step's failure returning immediately. -/
def StorageUploader.UploadBackup (env : BackupUploadEnv) (st : BackupStore) :
    Except String Unit × BackupStore :=
  let timeStart := env.startTime
  match pushStream env st with
  | (Except.error e, st1) => (Except.error e, st1)
  | (Except.ok backupName, st1) =>
    match env.finalizeErr with
    | some e => (Except.error e, st1)
    | none =>
      match env.waitErr with
      | some e => (Except.error e, st1)
      | none =>
        let backupSentinel : Backup :=
          ⟨"", timeStart, env.finishTime, env.userData, env.meta⟩
        uploadSentinel env backupSentinel backupName st1

/-! ### DiscardUploader -/

/-- The observable outcome of a Go call that may panic instead of
returning. -/
inductive GoCall (α : Type) where
  | ret (val : α)
  | panicked (msg : String)
deriving DecidableEq, Repr

/-- `DiscardUploader.UploadGapArchive`: returns nil, touching no store.
Returns (error result, store writes performed). -/
def DiscardUploader.UploadGapArchive (archErr : Option String)
    (firstTS lastTS : Timestamp) : Option String × List StoredObject :=
  (none, [])

/-- `DiscardUploader.UploadBackup`: `panic("implement me")`. The stream
argument stands for the unused parameters. -/
def DiscardUploader.UploadBackup (stream : String) : GoCall (Option String) :=
  GoCall.panicked "implement me"

/-! ### StoragePurger -/

/-- Collaborator outcomes observed by `StoragePurger.DeleteBackups`:
`Backup.GetTarNames` per backup name, and whether the folder's
`DeleteObjects` batch call reports an error. -/
structure PurgerEnv where
  tarNames : String → Except String (List String)
  deleteErr : Option String

/-- Modelled from the spec: `Backup.GetStopSentinelPath` — the backup name
plus the sentinel suffix. -/
def getStopSentinelPath (name : String) : String := name ++ sentinelSuffix

/-- The `for` loop of `StoragePurger.DeleteBackups`: per backup, append its
data-part keys then its sentinel key, aborting on a `GetTarNames` failure. -/
def deleteBackupsKeys (env : PurgerEnv) :
    List Backup → List String → Except String (List String)
  | [], keys => Except.ok keys
  | backup :: rest, keys =>
    match env.tarNames backup.BackupName with
    | Except.error e => Except.error e
    | Except.ok dataKeys =>
      deleteBackupsKeys env rest
        (keys ++ dataKeys ++ [getStopSentinelPath backup.BackupName])

/-- `StoragePurger.DeleteBackups`: accumulate every data-part key plus each
backup's sentinel key, then issue one `DeleteObjects` batch call. Returns
(result, the batch calls issued, each the list of keys passed). -/
def StoragePurger.DeleteBackups (env : PurgerEnv) (backups : List Backup) :
    Except String Unit × List (List String) :=
  match deleteBackupsKeys env backups [] with
  | Except.error e => (Except.error e, [])
  | Except.ok keys =>
    match env.deleteErr with
    | some e => (Except.error e, [keys])
    | none => (Except.ok (), [keys])

/-! ### DefaultFileUnwrapper (file-restore dispatcher) -/

/-- The restore options driving the dispatch: "this restore is incremental"
and "this file is a database page file". -/
structure FileUnwrapperOptions where
  isIncremented : Bool
  isPageFile : Bool
deriving DecidableEq, Repr

/-- The restore handler a file is routed to. -/
inductive UnwrapAction where
  | CreateFileFromIncrement
  | WriteLocalFile
  | WritePagesFromIncrement
  | RestoreMissingPages
deriving DecidableEq, Repr

/-- Collaborator outcomes observed by the dispatcher: the error (if any) each
external routine reports, and the restored file's name used in wrapped
messages. -/
structure UnwrapEnv where
  newReadWriterAtErr : Option String
  createFromIncrementErr : Option String
  writeLocalFileErr : Option String
  writePagesErr : Option String
  restorePagesErr : Option String
  fileName : String

/-- `errors.Wrapf` of the pkg/errors library: nil stays nil, otherwise the
message annotates the cause as `msg: cause`. -/
def wrapf (e : Option String) (msg : String) : Option String :=
  match e with
  | none => none
  | some s => some (msg ++ ": " ++ s)

/-- `DefaultFileUnwrapper.UnwrapNewFile`: incremental restores synthesize the
file from the increment stream through a random-access target; otherwise the
stream is written verbatim. Returns (error result, handler routed to). -/
def DefaultFileUnwrapper.UnwrapNewFile (u : FileUnwrapperOptions)
    (env : UnwrapEnv) : Option String × Option UnwrapAction :=
  if u.isIncremented then
    match env.newReadWriterAtErr with
    | some e => (some e, none)
    | none =>
      (wrapf env.createFromIncrementErr
        ("Interpret: failed to create file from increment " ++ squote env.fileName),
       some UnwrapAction.CreateFileFromIncrement)
  else
    (env.writeLocalFileErr, some UnwrapAction.WriteLocalFile)

/-- `DefaultFileUnwrapper.UnwrapExistingFile`: builds the random-access
target first, then patches from the increment stream when incremental,
restores missing pages for page files, and otherwise skips the file because
a newer version is already on disk. Returns (error result, handler routed
to). -/
def DefaultFileUnwrapper.UnwrapExistingFile (u : FileUnwrapperOptions)
    (env : UnwrapEnv) : Option String × Option UnwrapAction :=
  match env.newReadWriterAtErr with
  | some e => (some e, none)
  | none =>
    if u.isIncremented then
      (wrapf env.writePagesErr
        ("Interpret: failed to write increment to file " ++ squote env.fileName),
       some UnwrapAction.WritePagesFromIncrement)
    else if u.isPageFile then
      (wrapf env.restorePagesErr
        ("Interpret: failed to restore pages for file " ++ squote env.fileName),
       some UnwrapAction.RestoreMissingPages)
    else
      (none, none)

/-! ## Theorems -/

/-- C6: the file-restore dispatcher routes by exactly the five-case table:
new+incremental synthesizes from the increment stream, new+plain writes the
stream verbatim, existing+incremental patches from the increment stream,
existing+page-file+non-incremental restores only missing pages, and
existing+plain+non-incremental is skipped, returning success without
routing to any write handler. -/
theorem defaultFileUnwrapper_dispatch_table (u : FileUnwrapperOptions)
    (env : UnwrapEnv) (hrw : env.newReadWriterAtErr = none) :
    (u.isIncremented = true →
      (DefaultFileUnwrapper.UnwrapNewFile u env).2
        = some UnwrapAction.CreateFileFromIncrement)
  ∧ (u.isIncremented = false →
      DefaultFileUnwrapper.UnwrapNewFile u env
        = (env.writeLocalFileErr, some UnwrapAction.WriteLocalFile))
  ∧ (u.isIncremented = true →
      (DefaultFileUnwrapper.UnwrapExistingFile u env).2
        = some UnwrapAction.WritePagesFromIncrement)
  ∧ (u.isIncremented = false → u.isPageFile = true →
      (DefaultFileUnwrapper.UnwrapExistingFile u env).2
        = some UnwrapAction.RestoreMissingPages)
  ∧ (u.isIncremented = false → u.isPageFile = false →
      DefaultFileUnwrapper.UnwrapExistingFile u env = (none, none)) := by
  refine ⟨fun h => ?_, fun h => ?_, fun h => ?_, fun h hp => ?_, fun h hp => ?_⟩
  all_goals
    simp [DefaultFileUnwrapper.UnwrapNewFile, DefaultFileUnwrapper.UnwrapExistingFile,
      hrw, h]
  all_goals simp [hp]

/-- Concrete collaborator environment used by the dispatch witnesses. -/
def wUnwrapEnv : UnwrapEnv := ⟨none, none, none, none, none, "base/16384"⟩

theorem defaultFileUnwrapper_dispatch_table_witness :
    ((DefaultFileUnwrapper.UnwrapNewFile ⟨true, false⟩ wUnwrapEnv).2
        = some UnwrapAction.CreateFileFromIncrement)
  ∧ (DefaultFileUnwrapper.UnwrapNewFile ⟨false, false⟩ wUnwrapEnv
        = (wUnwrapEnv.writeLocalFileErr, some UnwrapAction.WriteLocalFile))
  ∧ ((DefaultFileUnwrapper.UnwrapExistingFile ⟨true, true⟩ wUnwrapEnv).2
        = some UnwrapAction.WritePagesFromIncrement)
  ∧ ((DefaultFileUnwrapper.UnwrapExistingFile ⟨false, true⟩ wUnwrapEnv).2
        = some UnwrapAction.RestoreMissingPages)
  ∧ (DefaultFileUnwrapper.UnwrapExistingFile ⟨false, false⟩ wUnwrapEnv
        = (none, none)) :=
  ⟨(defaultFileUnwrapper_dispatch_table ⟨true, false⟩ wUnwrapEnv rfl).1 rfl,
   (defaultFileUnwrapper_dispatch_table ⟨false, false⟩ wUnwrapEnv rfl).2.1 rfl,
   (defaultFileUnwrapper_dispatch_table ⟨true, true⟩ wUnwrapEnv rfl).2.2.1 rfl,
   (defaultFileUnwrapper_dispatch_table ⟨false, true⟩ wUnwrapEnv rfl).2.2.2.1 rfl rfl,
   (defaultFileUnwrapper_dispatch_table ⟨false, false⟩ wUnwrapEnv rfl).2.2.2.2 rfl rfl⟩

/-- C10: for an existing file in incremental mode the dispatcher applies the
increment-patch path regardless of the page-file flag — `isIncremented`
takes precedence over `isPageFile` — and the missing-pages path is reached
only when `isIncremented` is false. -/
theorem unwrapExistingFile_increment_precedence (env : UnwrapEnv) (ipf : Bool)
    (hrw : env.newReadWriterAtErr = none) :
    ((DefaultFileUnwrapper.UnwrapExistingFile ⟨true, ipf⟩ env).2
        = some UnwrapAction.WritePagesFromIncrement)
  ∧ (∀ u : FileUnwrapperOptions, ∀ env' : UnwrapEnv,
      (DefaultFileUnwrapper.UnwrapExistingFile u env').2
          = some UnwrapAction.RestoreMissingPages →
      u.isIncremented = false) := by
  constructor
  · simp [DefaultFileUnwrapper.UnwrapExistingFile, hrw]
  · intro u env' h
    by_contra hinc
    simp only [Bool.not_eq_false] at hinc
    cases henv : env'.newReadWriterAtErr with
    | some e => simp [DefaultFileUnwrapper.UnwrapExistingFile, henv] at h
    | none => simp [DefaultFileUnwrapper.UnwrapExistingFile, henv, hinc] at h

theorem unwrapExistingFile_increment_precedence_witness :
    ((DefaultFileUnwrapper.UnwrapExistingFile ⟨true, true⟩ wUnwrapEnv).2
        = some UnwrapAction.WritePagesFromIncrement)
  ∧ ((DefaultFileUnwrapper.UnwrapExistingFile ⟨true, true⟩ wUnwrapEnv).2
        = some UnwrapAction.RestoreMissingPages →
      (true : Bool) = false) :=
  ⟨(unwrapExistingFile_increment_precedence wUnwrapEnv true rfl).1,
   fun h => (unwrapExistingFile_increment_precedence wUnwrapEnv true rfl).2
     ⟨true, true⟩ wUnwrapEnv h⟩

/-- C8: the discard (dry-run) uploader reports every gap upload as a
succeeding no-op performing no store write, while its full-backup upload
panics as not implemented and never returns at all — in particular it never
returns success. -/
theorem discardUploader_gap_noop_backup_unimplemented :
    (∀ archErr firstTS lastTS,
      DiscardUploader.UploadGapArchive archErr firstTS lastTS = (none, []))
  ∧ (∀ stream, DiscardUploader.UploadBackup stream = GoCall.panicked "implement me")
  ∧ (∀ stream r, DiscardUploader.UploadBackup stream ≠ GoCall.ret r) := by
  refine ⟨fun _ _ _ => rfl, fun _ => rfl, fun _ r h => ?_⟩
  exact GoCall.noConfusion h

/-- C4: on the store-backed uploader, a gap upload with a nil cause fails
with the precondition error and touches the store not at all; with a
non-nil cause (and a well-formed interval, the collaborator push
succeeding) it stores exactly one object whose key is the serialization of
`(firstTS, lastTS, Gap, extension)` and whose content is the cause's
textual message. -/
theorem uploadGapArchive_gap_semantics (env : GapUploadEnv)
    (firstTS lastTS : Timestamp) (msg : String)
    (hle : LessTS lastTS firstTS = false) (hpush : env.pushErr = none) :
    StorageUploader.UploadGapArchive env none firstTS lastTS
        = (Except.error "archErr must not be nil", [])
  ∧ StorageUploader.UploadGapArchive env (some msg) firstTS lastTS
        = (Except.ok (),
           [⟨Archive.Filename ⟨firstTS, lastTS, env.ext, ArchiveType.Gap⟩, msg⟩]) := by
  constructor
  · rfl
  · simp [StorageUploader.UploadGapArchive, NewArchive, hle, hpush]

theorem uploadGapArchive_gap_semantics_witness :
    StorageUploader.UploadGapArchive ⟨"lz4", none⟩ none ⟨100, 1⟩ ⟨200, 2⟩
        = (Except.error "archErr must not be nil", [])
  ∧ StorageUploader.UploadGapArchive ⟨"lz4", none⟩ (some "capture failed") ⟨100, 1⟩ ⟨200, 2⟩
        = (Except.ok (),
           [⟨Archive.Filename ⟨⟨100, 1⟩, ⟨200, 2⟩, "lz4", ArchiveType.Gap⟩,
             "capture failed"⟩]) :=
  uploadGapArchive_gap_semantics ⟨"lz4", none⟩ ⟨100, 1⟩ ⟨200, 2⟩ "capture failed"
    (by decide) rfl

/-- Helper: a single `UploadOplogArchive` call leaves an initially empty
buffer empty, on every return path. -/
lemma uploadOplogArchive_preserves_empty_buf (env : OplogUploadEnv)
    (firstTS lastTS : Timestamp) (su : StorageUploaderBuf) (h : su.buf = "") :
    (StorageUploader.UploadOplogArchive env firstTS lastTS su).2.1.buf = "" := by
  simp only [StorageUploader.UploadOplogArchive]
  cases NewArchive firstTS lastTS env.ext ArchiveType.Oplog with
  | error e => simpa using h
  | ok arch =>
    cases env.readFromErr with
    | some e => rfl
    | none =>
      cases env.uploadErr with
      | some e => rfl
      | none => rfl

/-- C9: starting from the fresh uploader instance (whose reusable buffer is
empty), after any sequence of `UploadOplogArchive` calls — each succeeding
or failing arbitrarily — the internal buffer is empty, so no bytes of one
call's stream remain observable in a later call. -/
theorem uploadOplogArchive_buffer_cleared
    (calls : List (OplogUploadEnv × Timestamp × Timestamp)) :
    (runOplogUploads calls NewStorageUploaderBuf).buf = "" := by
  suffices h : ∀ (cs : List (OplogUploadEnv × Timestamp × Timestamp))
      (su : StorageUploaderBuf), su.buf = "" → (runOplogUploads cs su).buf = "" from
    h calls NewStorageUploaderBuf rfl
  intro cs
  induction cs with
  | nil => intro su h; exact h
  | cons c rest ih =>
    intro su h
    obtain ⟨env, ts1, ts2⟩ := c
    exact ih _ (uploadOplogArchive_preserves_empty_buf env ts1 ts2 su h)

/-- C1: `UploadBackup` on the store-backed uploader runs push-stream,
finalize, wait, then the sentinel write strictly in that order, each step's
failure aborting the remaining steps: a push failure leaves the store
untouched; a finalize or wait failure returns that error with the data
object stored but no sentinel written; only when every step succeeds is the
sentinel written, after the data. -/
theorem uploadBackup_step_order_and_abort (env : BackupUploadEnv)
    (st : BackupStore) :
    (∀ e, env.pushErr = some e →
      StorageUploader.UploadBackup env st = (Except.error e, st))
  ∧ (∀ e, env.pushErr = none → env.finalizeErr = some e →
      StorageUploader.UploadBackup env st
        = (Except.error e,
           { st with dataObjects := st.dataObjects ++ [env.pushName] }))
  ∧ (∀ e, env.pushErr = none → env.finalizeErr = none → env.waitErr = some e →
      StorageUploader.UploadBackup env st
        = (Except.error e,
           { st with dataObjects := st.dataObjects ++ [env.pushName] }))
  ∧ (∀ e, env.pushErr = none → env.finalizeErr = none → env.waitErr = none →
      env.sentinelErr = some e →
      StorageUploader.UploadBackup env st
        = (Except.error e,
           { st with dataObjects := st.dataObjects ++ [env.pushName] }))
  ∧ (env.pushErr = none → env.finalizeErr = none → env.waitErr = none →
      env.sentinelErr = none →
      StorageUploader.UploadBackup env st
        = (Except.ok (),
           { dataObjects := st.dataObjects ++ [env.pushName],
             sentinels := st.sentinels ++ [(env.pushName ++ sentinelSuffix,
               ⟨"", env.startTime, env.finishTime, env.userData, env.meta⟩)] })) := by
  refine ⟨fun e h => ?_, fun e h1 h2 => ?_, fun e h1 h2 h3 => ?_,
    fun e h1 h2 h3 h4 => ?_, fun h1 h2 h3 h4 => ?_⟩
  all_goals
    simp [StorageUploader.UploadBackup, pushStream, uploadSentinel, *]

theorem uploadBackup_step_order_and_abort_witness :
    (StorageUploader.UploadBackup
        ⟨"b1", some "push broke", none, none, none, 5, 9, "u", "m"⟩ ⟨[], []⟩
      = (Except.error "push broke", ⟨[], []⟩))
  ∧ (StorageUploader.UploadBackup
        ⟨"b1", none, some "finalize broke", none, none, 5, 9, "u", "m"⟩ ⟨[], []⟩
      = (Except.error "finalize broke", ⟨["b1"], []⟩))
  ∧ (StorageUploader.UploadBackup
        ⟨"b1", none, none, some "wait broke", none, 5, 9, "u", "m"⟩ ⟨[], []⟩
      = (Except.error "wait broke", ⟨["b1"], []⟩))
  ∧ (StorageUploader.UploadBackup
        ⟨"b1", none, none, none, some "sentinel broke", 5, 9, "u", "m"⟩ ⟨[], []⟩
      = (Except.error "sentinel broke", ⟨["b1"], []⟩))
  ∧ (StorageUploader.UploadBackup
        ⟨"b1", none, none, none, none, 5, 9, "u", "m"⟩ ⟨[], []⟩
      = (Except.ok (),
         ⟨["b1"], [("b1" ++ sentinelSuffix, ⟨"", 5, 9, "u", "m"⟩)]⟩)) :=
  ⟨(uploadBackup_step_order_and_abort
      ⟨"b1", some "push broke", none, none, none, 5, 9, "u", "m"⟩ ⟨[], []⟩).1
      "push broke" rfl,
   (uploadBackup_step_order_and_abort
      ⟨"b1", none, some "finalize broke", none, none, 5, 9, "u", "m"⟩ ⟨[], []⟩).2.1
      "finalize broke" rfl rfl,
   (uploadBackup_step_order_and_abort
      ⟨"b1", none, none, some "wait broke", none, 5, 9, "u", "m"⟩ ⟨[], []⟩).2.2.1
      "wait broke" rfl rfl rfl,
   (uploadBackup_step_order_and_abort
      ⟨"b1", none, none, none, some "sentinel broke", 5, 9, "u", "m"⟩ ⟨[], []⟩).2.2.2.1
      "sentinel broke" rfl rfl rfl rfl,
   (uploadBackup_step_order_and_abort
      ⟨"b1", none, none, none, none, 5, 9, "u", "m"⟩ ⟨[], []⟩).2.2.2.2
      rfl rfl rfl rfl⟩

/-- The data-part keys a backup owns, as the purger observes them from
`GetTarNames` (empty on the error the loop would abort on). -/
def okKeys (r : Except String (List String)) : List String :=
  match r with
  | Except.ok ks => ks
  | Except.error _ => []

/-- Helper: when every `GetTarNames` lookup succeeds, the key-accumulation
loop yields the accumulator followed by, per backup, its data keys then its
sentinel key. -/
lemma deleteBackupsKeys_ok (env : PurgerEnv) :
    ∀ (backups : List Backup) (acc : List String),
      (∀ b ∈ backups, ∃ ks, env.tarNames b.BackupName = Except.ok ks) →
      deleteBackupsKeys env backups acc
        = Except.ok (acc ++ backups.flatMap
            (fun b => okKeys (env.tarNames b.BackupName)
              ++ [getStopSentinelPath b.BackupName])) := by
  intro backups
  induction backups with
  | nil => intro acc _; simp [deleteBackupsKeys]
  | cons b rest ih =>
    intro acc h
    obtain ⟨ks, hks⟩ := h b (List.mem_cons_self b rest)
    rw [deleteBackupsKeys, hks]
    show deleteBackupsKeys env rest (acc ++ ks ++ [getStopSentinelPath b.BackupName]) = _
    rw [ih _ (fun x hx => h x (List.mem_cons_of_mem b hx))]
    simp [okKeys, hks]

/-- C7: when every `GetTarNames` lookup succeeds, `DeleteBackups`
accumulates, across all given backups, every data-part key plus each
backup's sentinel key — and no other keys — and issues exactly one batch
`DeleteObjects` call carrying exactly that accumulated set; and if any
lookup fails, no batch delete is issued at all. -/
theorem deleteBackups_single_batch (env : PurgerEnv) (backups : List Backup) :
    ((∀ b ∈ backups, ∃ ks, env.tarNames b.BackupName = Except.ok ks) →
      (StoragePurger.DeleteBackups env backups).2
        = [backups.flatMap (fun b => okKeys (env.tarNames b.BackupName)
            ++ [getStopSentinelPath b.BackupName])])
  ∧ (∀ pre bad post e, backups = pre ++ bad :: post →
      (∀ b ∈ pre, ∃ ks, env.tarNames b.BackupName = Except.ok ks) →
      env.tarNames bad.BackupName = Except.error e →
      (StoragePurger.DeleteBackups env backups).2 = []) := by
  constructor
  · intro h
    rw [StoragePurger.DeleteBackups, deleteBackupsKeys_ok env backups [] h]
    cases env.deleteErr <;> simp
  · intro pre bad post e hsplit hpre hbad
    subst hsplit
    suffices hloop : ∀ acc, deleteBackupsKeys env (pre ++ bad :: post) acc
        = Except.error e by
      rw [StoragePurger.DeleteBackups, hloop []]
    induction pre with
    | nil => intro acc; simp [deleteBackupsKeys, hbad]
    | cons p rest ih =>
      intro acc
      obtain ⟨ks, hks⟩ := hpre p (List.mem_cons_self p rest)
      rw [List.cons_append, deleteBackupsKeys, hks]
      exact ih (fun x hx => hpre x (List.mem_cons_of_mem p hx)) _

/-- A concrete `GetTarNames` collaborator used by the purger witness. -/
def wTarNames (name : String) : Except String (List String) :=
  if name = "b1" then Except.ok ["b1/part_001.tar.lz4", "b1/part_002.tar.lz4"]
  else if name = "b2" then Except.ok ["b2/part_001.tar.lz4"]
  else Except.error "no such backup"

theorem deleteBackups_single_batch_witness :
    ((StoragePurger.DeleteBackups ⟨wTarNames, none⟩
        [⟨"b1", 0, 2, "", ""⟩, ⟨"b2", 1, 3, "", ""⟩]).2
      = [["b1/part_001.tar.lz4", "b1/part_002.tar.lz4",
          getStopSentinelPath "b1", "b2/part_001.tar.lz4",
          getStopSentinelPath "b2"]])
  ∧ ((StoragePurger.DeleteBackups ⟨wTarNames, none⟩
        [⟨"b1", 0, 2, "", ""⟩, ⟨"missing", 1, 3, "", ""⟩]).2 = []) := by
  constructor
  · have h := (deleteBackups_single_batch ⟨wTarNames, none⟩
      [⟨"b1", 0, 2, "", ""⟩, ⟨"b2", 1, 3, "", ""⟩]).1 (by
        intro b hb
        fin_cases hb <;> exact ⟨_, rfl⟩)
    rw [h]
    rfl
  · exact (deleteBackups_single_batch ⟨wTarNames, none⟩
      [⟨"b1", 0, 2, "", ""⟩, ⟨"missing", 1, 3, "", ""⟩]).2
      [⟨"b1", 0, 2, "", ""⟩] ⟨"missing", 1, 3, "", ""⟩ [] "no such backup" rfl
      (by intro b hb; fin_cases hb <;> exact ⟨_, rfl⟩) rfl

/-- Helper: when every key decodes, the listing loop returns the accumulator
followed by the decoded archives, one per key, in listing order. -/
lemma listOplogLoop_ok (dec : String → Except String Archive) :
    ∀ (keys : List String) (acc : List Archive),
      (∀ k ∈ keys, ∃ a, dec k = Except.ok a) →
      ∃ archives, listOplogLoop dec keys acc = Except.ok (acc ++ archives)
        ∧ List.Forall₂ (fun k a => dec k = Except.ok a) keys archives := by
  intro keys
  induction keys with
  | nil => intro acc _; exact ⟨[], by simp [listOplogLoop], List.Forall₂.nil⟩
  | cons key rest ih =>
    intro acc h
    obtain ⟨a, ha⟩ := h key (List.mem_cons_self key rest)
    obtain ⟨archives, hloop, hrel⟩ :=
      ih (acc ++ [a]) (fun x hx => h x (List.mem_cons_of_mem key hx))
    refine ⟨a :: archives, ?_, List.Forall₂.cons ha hrel⟩
    rw [listOplogLoop, ha]
    simpa using hloop

/-- Helper: the first key that fails to decode aborts the listing loop with
the wrapped error naming that key. -/
lemma listOplogLoop_err (dec : String → Except String Archive)
    (bad : String) (post : List String) (e : String)
    (hbad : dec bad = Except.error e) :
    ∀ (pre : List String) (acc : List Archive),
      (∀ k ∈ pre, ∃ a, dec k = Except.ok a) →
      listOplogLoop dec (pre ++ bad :: post) acc
        = Except.error (wrapArchDecodeErr bad e) := by
  intro pre
  induction pre with
  | nil => intro acc _; rw [List.nil_append, listOplogLoop, hbad]
  | cons p rest ih =>
    intro acc h
    obtain ⟨a, ha⟩ := h p (List.mem_cons_self p rest)
    rw [List.cons_append, listOplogLoop, ha]
    exact ih _ (fun x hx => h x (List.mem_cons_of_mem p hx))

/-- C2: `ListOplogArchives` is all-or-nothing — when every listed key
decodes, it returns the full list of decoded archives, one per key in
listing order; when any key fails to decode, it returns the wrapped error
naming the first offending key and no archives at all (the error
constructor carries no partial list). -/
theorem listOplogArchives_all_or_nothing
    (dec : String → Except String Archive) (keys : List String) :
    ((∀ k ∈ keys, ∃ a, dec k = Except.ok a) →
      ∃ archives, ListOplogArchives dec (Except.ok keys) = Except.ok archives
        ∧ List.Forall₂ (fun k a => dec k = Except.ok a) keys archives)
  ∧ (∀ pre bad post e, keys = pre ++ bad :: post →
      (∀ k ∈ pre, ∃ a, dec k = Except.ok a) →
      dec bad = Except.error e →
      ListOplogArchives dec (Except.ok keys)
        = Except.error (wrapArchDecodeErr bad e)) := by
  constructor
  · intro h
    obtain ⟨archives, hloop, hrel⟩ := listOplogLoop_ok dec keys [] h
    exact ⟨archives, by simpa [ListOplogArchives] using hloop, hrel⟩
  · intro pre bad post e hsplit hpre hbad
    subst hsplit
    exact listOplogLoop_err dec bad post e hbad pre [] hpre

/-- A concrete key decoder used by the listing witnesses: `k1` and `k2`
decode, anything else is malformed. -/
def wDec (k : String) : Except String Archive :=
  if k = "k1" then Except.ok ⟨⟨100, 1⟩, ⟨200, 2⟩, "lz4", ArchiveType.Oplog⟩
  else if k = "k2" then Except.ok ⟨⟨200, 2⟩, ⟨350, 1⟩, "lz4", ArchiveType.Gap⟩
  else Except.error "unexpected oplog archive file format"

theorem listOplogArchives_all_or_nothing_witness :
    (∃ archives, ListOplogArchives wDec (Except.ok ["k1", "k2"])
        = Except.ok archives
      ∧ List.Forall₂ (fun k a => wDec k = Except.ok a) ["k1", "k2"] archives)
  ∧ ListOplogArchives wDec (Except.ok ["k1", "junk", "k2"])
      = Except.error (wrapArchDecodeErr "junk" "unexpected oplog archive file format") :=
  ⟨(listOplogArchives_all_or_nothing wDec ["k1", "k2"]).1
    (by intro k hk; fin_cases hk <;> exact ⟨_, rfl⟩),
   (listOplogArchives_all_or_nothing wDec ["k1", "junk", "k2"]).2
    ["k1"] "junk" ["k2"] "unexpected oplog archive file format" rfl
    (by intro k hk; fin_cases hk <;> exact ⟨_, rfl⟩) rfl⟩

/-- The archive a key decodes to (irrelevant default on a decode error). -/
def decodedArch (dec : String → Except String Archive) (k : String) : Archive :=
  match dec k with
  | Except.ok a => a
  | Except.error _ => default

/-- Helper: when every key decodes, the `LastKnownArchiveTS` loop is the
`MaxTS` fold over the decoded archives' `End` values. -/
lemma lastKnownLoop_ok (dec : String → Except String Archive) :
    ∀ (keys : List String) (m : Timestamp),
      (∀ k ∈ keys, ∃ a, dec k = Except.ok a) →
      lastKnownLoop dec keys m
        = Except.ok (keys.foldl
            (fun acc k => MaxTS acc (decodedArch dec k).End) m) := by
  intro keys
  induction keys with
  | nil => intro m _; rfl
  | cons key rest ih =>
    intro m h
    obtain ⟨a, ha⟩ := h key (List.mem_cons_self key rest)
    have hrest := ih (MaxTS m a.End) (fun x hx => h x (List.mem_cons_of_mem key hx))
    rw [lastKnownLoop, ha]
    show lastKnownLoop dec rest (MaxTS m a.End) = _
    rw [hrest]
    simp [decodedArch, ha]

/-- Helper: a `Forall₂` decode witness makes every key decodable. -/
lemma forall₂_decodable (dec : String → Except String Archive) :
    ∀ {keys : List String} {archives : List Archive},
      List.Forall₂ (fun k a => dec k = Except.ok a) keys archives →
      ∀ k ∈ keys, ∃ a, dec k = Except.ok a := by
  intro keys archives h
  induction h with
  | nil => intro k hk; cases hk
  | cons hr _ ih =>
    intro k hk
    rcases List.mem_cons.mp hk with rfl | hk'
    · exact ⟨_, hr⟩
    · exact ih k hk'

/-- Helper: under a `Forall₂` decode witness, the fold over keys equals the
fold over the decoded archives. -/
lemma foldl_decoded_eq (dec : String → Except String Archive) :
    ∀ {keys : List String} {archives : List Archive},
      List.Forall₂ (fun k a => dec k = Except.ok a) keys archives →
      ∀ m, keys.foldl (fun acc k => MaxTS acc (decodedArch dec k).End) m
        = archives.foldl (fun acc a => MaxTS acc a.End) m := by
  intro keys archives h
  induction h with
  | nil => intro m; rfl
  | @cons k a ks as hr ht ih =>
    intro m
    simp only [List.foldl_cons]
    have hda : decodedArch dec k = a := by simp [decodedArch, hr]
    rw [hda]
    exact ih (MaxTS m a.End)

/-- Helper: `LessTS` read as ≥ is transitive. -/
lemma lessTS_trans_false {a b c : Timestamp}
    (h1 : LessTS a b = false) (h2 : LessTS b c = false) :
    LessTS a c = false := by
  obtain ⟨a1, a2⟩ := a
  obtain ⟨b1, b2⟩ := b
  obtain ⟨c1, c2⟩ := c
  simp only [LessTS] at h1 h2 ⊢
  simp_all
  omega

/-- Helper: the `MaxTS` fold never drops below its start value. -/
lemma foldl_maxTS_ge_start :
    ∀ (l : List Archive) (m x : Timestamp), LessTS m x = false →
      LessTS (l.foldl (fun acc a => MaxTS acc a.End) m) x = false := by
  intro l
  induction l with
  | nil => intro m x h; exact h
  | cons b rest ih =>
    intro m x h
    simp only [List.foldl_cons]
    exact ih _ x (lessTS_trans_false (lessTS_maxTS_left m b.End) h)

/-- Helper: the `MaxTS` fold dominates the `End` of every list element. -/
lemma foldl_maxTS_mem :
    ∀ (l : List Archive) (m : Timestamp) (a : Archive), a ∈ l →
      LessTS (l.foldl (fun acc x => MaxTS acc x.End) m) a.End = false := by
  intro l
  induction l with
  | nil => intro m a ha; cases ha
  | cons b rest ih =>
    intro m a ha
    simp only [List.foldl_cons]
    rcases List.mem_cons.mp ha with rfl | ha'
    · exact foldl_maxTS_ge_start rest _ _ (lessTS_maxTS_right m a.End)
    · exact ih _ a ha'

/-- C3: over any decodable set of oplog-root keys, `LastKnownArchiveTS`
returns the `MaxTS` fold over every decoded archive's `End` (Oplog or Gap
alike), that value dominates every `End`, the result is independent of the
order in which the store lists the keys, and an empty oplog root yields the
zero timestamp. -/
theorem lastKnownArchiveTS_max_end (dec : String → Except String Archive) :
    LastKnownArchiveTS dec (Except.ok []) = Except.ok Timestamp.zero
  ∧ (∀ keys archives,
      List.Forall₂ (fun k a => dec k = Except.ok a) keys archives →
      LastKnownArchiveTS dec (Except.ok keys)
        = Except.ok (archives.foldl (fun m a => MaxTS m a.End) Timestamp.zero))
  ∧ (∀ keys₁ keys₂, keys₁.Perm keys₂ →
      (∀ k ∈ keys₁, ∃ a, dec k = Except.ok a) →
      LastKnownArchiveTS dec (Except.ok keys₁)
        = LastKnownArchiveTS dec (Except.ok keys₂))
  ∧ (∀ keys archives ts,
      List.Forall₂ (fun k a => dec k = Except.ok a) keys archives →
      LastKnownArchiveTS dec (Except.ok keys) = Except.ok ts →
      ∀ a ∈ archives, LessTS ts a.End = false) := by
  have hbody : ∀ keys, LastKnownArchiveTS dec (Except.ok keys)
      = lastKnownLoop dec keys Timestamp.zero := fun _ => rfl
  refine ⟨rfl, fun keys archives h => ?_, fun keys₁ keys₂ hp h => ?_,
    fun keys archives ts h hts => ?_⟩
  · rw [hbody, lastKnownLoop_ok dec keys Timestamp.zero (forall₂_decodable dec h),
      foldl_decoded_eq dec h]
  · haveI : RightCommutative
        (fun (acc : Timestamp) (k : String) => MaxTS acc (decodedArch dec k).End) :=
      ⟨fun b a₁ a₂ => maxTS_right_comm b _ _⟩
    rw [hbody, hbody, lastKnownLoop_ok dec keys₁ Timestamp.zero h,
      lastKnownLoop_ok dec keys₂ Timestamp.zero
        (fun k hk => h k (hp.mem_iff.mpr hk)),
      hp.foldl_eq Timestamp.zero]
  · intro a ha
    rw [hbody, lastKnownLoop_ok dec keys Timestamp.zero (forall₂_decodable dec h),
      foldl_decoded_eq dec h] at hts
    cases hts
    exact foldl_maxTS_mem archives Timestamp.zero a ha

theorem lastKnownArchiveTS_max_end_witness :
    LastKnownArchiveTS wDec (Except.ok []) = Except.ok Timestamp.zero
  ∧ LastKnownArchiveTS wDec (Except.ok ["k1", "k2"]) = Except.ok ⟨350, 1⟩
  ∧ LastKnownArchiveTS wDec (Except.ok ["k1", "k2"])
      = LastKnownArchiveTS wDec (Except.ok ["k2", "k1"])
  ∧ LessTS ⟨350, 1⟩ ⟨200, 2⟩ = false := by
  have h2 := (lastKnownArchiveTS_max_end wDec).2.1 ["k1", "k2"]
    [⟨⟨100, 1⟩, ⟨200, 2⟩, "lz4", ArchiveType.Oplog⟩,
     ⟨⟨200, 2⟩, ⟨350, 1⟩, "lz4", ArchiveType.Gap⟩]
    (List.Forall₂.cons rfl (List.Forall₂.cons rfl List.Forall₂.nil))
  refine ⟨(lastKnownArchiveTS_max_end wDec).1, ?_, ?_, ?_⟩
  · rw [h2]; rfl
  · exact (lastKnownArchiveTS_max_end wDec).2.2.1 ["k1", "k2"] ["k2", "k1"]
      (List.Perm.swap "k2" "k1" [])
      (by intro k hk; fin_cases hk <;> exact ⟨_, rfl⟩)
  · exact (lastKnownArchiveTS_max_end wDec).2.2.2 ["k1", "k2"]
      [⟨⟨100, 1⟩, ⟨200, 2⟩, "lz4", ArchiveType.Oplog⟩,
       ⟨⟨200, 2⟩, ⟨350, 1⟩, "lz4", ArchiveType.Gap⟩] ⟨350, 1⟩
      (List.Forall₂.cons rfl (List.Forall₂.cons rfl List.Forall₂.nil))
      (by rw [h2]; rfl)
      ⟨⟨100, 1⟩, ⟨200, 2⟩, "lz4", ArchiveType.Oplog⟩ (by simp)

/-- The backup a name resolves to through `BackupMeta` (irrelevant default
on a resolution error). -/
def resolvedBackup (backupMeta : String → Except String Backup) (n : String) :
    Backup :=
  match backupMeta n with
  | Except.ok b => b
  | Except.error _ => default

/-- Helper: when every name resolves, the resolution loop returns the
accumulator followed by the resolved backups, one per name in input order. -/
lemma loadBackupsLoop_ok (backupMeta : String → Except String Backup) :
    ∀ (names : List String) (acc : List Backup),
      (∀ n ∈ names, ∃ b, backupMeta n = Except.ok b) →
      loadBackupsLoop backupMeta names acc
        = Except.ok (acc ++ names.map (resolvedBackup backupMeta)) := by
  intro names
  induction names with
  | nil => intro acc _; simp [loadBackupsLoop]
  | cons name rest ih =>
    intro acc h
    obtain ⟨b, hb⟩ := h name (List.mem_cons_self name rest)
    rw [loadBackupsLoop, hb]
    show loadBackupsLoop backupMeta rest (acc ++ [b]) = _
    rw [ih _ (fun x hx => h x (List.mem_cons_of_mem name hx))]
    simp [resolvedBackup, hb]

/-- Helper: when every name resolves, `LoadBackups` returns the resolved
backups sorted by the descending-finish-time comparator. -/
lemma loadBackups_ok (backupMeta : String → Except String Backup)
    (names : List String)
    (h : ∀ n ∈ names, ∃ b, backupMeta n = Except.ok b) :
    LoadBackups backupMeta names
      = Except.ok ((names.map (resolvedBackup backupMeta)).mergeSort
          (fun a b => decide (b.FinishLocalTime ≤ a.FinishLocalTime))) := by
  unfold LoadBackups
  rw [loadBackupsLoop_ok backupMeta names [] h]
  simp

/-- C5: `LoadBackups` resolves each name via `BackupMeta`; the first failed
resolution fails the whole call with that error and no partial result (the
error constructor carries no list), and on success it returns exactly one
backup per name — a permutation of the per-name resolutions — sorted by
`FinishLocalTime` descending, most recent first. -/
theorem loadBackups_sorted_desc (backupMeta : String → Except String Backup)
    (names : List String) :
    ((∀ n ∈ names, ∃ b, backupMeta n = Except.ok b) →
      ∃ bs, LoadBackups backupMeta names = Except.ok bs
        ∧ bs.Perm (names.map (resolvedBackup backupMeta))
        ∧ bs.Pairwise (fun a b => b.FinishLocalTime ≤ a.FinishLocalTime))
  ∧ (∀ pre bad post e, names = pre ++ bad :: post →
      (∀ n ∈ pre, ∃ b, backupMeta n = Except.ok b) →
      backupMeta bad = Except.error e →
      LoadBackups backupMeta names = Except.error e) := by
  constructor
  · intro h
    refine ⟨_, loadBackups_ok backupMeta names h, List.mergeSort_perm _ _, ?_⟩
    have hs := @List.sorted_mergeSort Backup
      (fun a b : Backup => decide (b.FinishLocalTime ≤ a.FinishLocalTime))
      (fun a b c h1 h2 => by
        simp only [decide_eq_true_eq] at h1 h2 ⊢; omega)
      (fun a b => by simp only [Bool.or_eq_true, decide_eq_true_eq]; omega)
      (names.map (resolvedBackup backupMeta))
    exact hs.imp fun hab => of_decide_eq_true hab
  · intro pre bad post e hsplit hpre hbad
    subst hsplit
    suffices hloop : ∀ acc, loadBackupsLoop backupMeta (pre ++ bad :: post) acc
        = Except.error e by
      unfold LoadBackups
      rw [hloop []]
    induction pre with
    | nil => intro acc; rw [List.nil_append, loadBackupsLoop, hbad]
    | cons p rest ih =>
      intro acc
      obtain ⟨b, hb⟩ := hpre p (List.mem_cons_self p rest)
      rw [List.cons_append, loadBackupsLoop, hb]
      exact ih (fun x hx => hpre x (List.mem_cons_of_mem p hx)) _

/-- A concrete `BackupMeta` collaborator used by the `LoadBackups`
witness. -/
def wBackupMeta (n : String) : Except String Backup :=
  if n = "b1" then Except.ok ⟨"b1", 0, 10, "", ""⟩
  else if n = "b2" then Except.ok ⟨"b2", 5, 20, "", ""⟩
  else Except.error "can not fetch stream sentinel: object not found"

theorem loadBackups_sorted_desc_witness :
    (∃ bs, LoadBackups wBackupMeta ["b1", "b2"] = Except.ok bs
      ∧ bs.Perm (["b1", "b2"].map (resolvedBackup wBackupMeta))
      ∧ bs.Pairwise (fun a b => b.FinishLocalTime ≤ a.FinishLocalTime))
  ∧ LoadBackups wBackupMeta ["b1", "nope", "b2"]
      = Except.error "can not fetch stream sentinel: object not found" :=
  ⟨(loadBackups_sorted_desc wBackupMeta ["b1", "b2"]).1
    (by intro n hn; fin_cases hn <;> exact ⟨_, rfl⟩),
   (loadBackups_sorted_desc wBackupMeta ["b1", "nope", "b2"]).2
    ["b1"] "nope" ["b2"] "can not fetch stream sentinel: object not found" rfl
    (by intro n hn; fin_cases hn <;> exact ⟨_, rfl⟩) rfl⟩

end WalG
